import Mathlib

/-!
Verification development for the valijson JSON Schema validation engine.

The embedding follows the sources:
  - `include/valijson/validation_visitor.hpp` (ValidationVisitor and its helper
    functors ValidateSubschemas, ValidateItems, ValidatePropertyDependencies,
    ValidateSchemaDependencies),
  - `include/valijson/subschema.hpp` (Subschema: apply/applyStrict and the
    optional title/description/id metadata),
  - `include/valijson/constraints/concrete_constraints.hpp` (constraint payloads
    and their applyTo* iteration helpers),
  - `include/valijson/validation_results.hpp` (the Path-based ValidationResults
    revision with legacy context and RFC 6901 JSON Pointer views).

Modelling conventions:
  - JSON documents are modelled as a typed value tree (`JsonValue`).  C++
    `double` is modelled as an exact rational; `int64_t` as `Int`.
  - The document adapter capability (`basic_adapter.hpp` is not among the
    sources; only concrete adapters are) is modelled from the spec for a
    strongly-typed backend: the authoritative type predicates follow the value
    constructors, and the maybe-coercion predicates coincide with them except
    for the numeric cross-coercions (an integer value is maybe-double, a
    double value holding an integral number is maybe-integer), mirroring the
    behaviour the std_string_adapter sources exhibit for parsed numbers.
  - The external regular-expression engine (boost::regex with perl syntax and
    regex_search semantics) is an uninterpreted parameter `rx`: `rx pat s`
    states that a substring of `s` matches the pattern source `pat`.
  - Error sinks (`ValidationResults` pointers) are modelled by a flag `wr`
    (results pointer non-null) together with the ordered list of errors pushed
    during a call.  In the oneOf visitor two distinct sinks are live at once,
    so the subschema-iteration helper tags each pushed error with the sink it
    went to.
-/

namespace Valijson

/-- A JSON document node.  Numbers keep the C++ distinction between
integer-typed (`int`) and double-typed (`num`) values; doubles are modelled as
exact rationals.  Object members are in document order with unique keys. -/
inductive JsonValue where
  | null
  | bool (b : Bool)
  | int (i : Int)
  | num (q : Rat)
  | str (s : String)
  | arr (items : List JsonValue)
  | obj (members : List (String × JsonValue))

/-- Authoritative type tag test `isObject()`. -/
def isObjectB : JsonValue → Bool
  | .obj _ => true
  | _ => false

/-- Authoritative type tag test `isArray()`. -/
def isArrayB : JsonValue → Bool
  | .arr _ => true
  | _ => false

/-- Authoritative type tag test `isString()`. -/
def isStringB : JsonValue → Bool
  | .str _ => true
  | _ => false

/-- Authoritative type tag test `isBool()`. -/
def isBoolB : JsonValue → Bool
  | .bool _ => true
  | _ => false

/-- Authoritative type tag test `isNull()`. -/
def isNullB : JsonValue → Bool
  | .null => true
  | _ => false

/-- Authoritative type tag test `isInteger()`: true for integer-typed values. -/
def isIntegerB : JsonValue → Bool
  | .int _ => true
  | _ => false

/-- Authoritative type tag test `isNumber()`: true for both integer-typed and
double-typed values. -/
def isNumberB : JsonValue → Bool
  | .int _ => true
  | .num _ => true
  | _ => false

/-- Modelled from the spec: coercion predicate `maybeObject()` of the document
adapter capability (`basic_adapter.hpp` is not among the sources).  For a
strongly-typed backend it coincides with the authoritative tag. -/
def maybeObjectB : JsonValue → Bool := isObjectB

/-- Modelled from the spec: coercion predicate `maybeArray()`; coincides with
the authoritative tag for a strongly-typed backend. -/
def maybeArrayB : JsonValue → Bool := isArrayB

/-- Modelled from the spec: coercion predicate `maybeString()`; coincides with
the authoritative tag for a strongly-typed backend. -/
def maybeStringB : JsonValue → Bool := isStringB

/-- Modelled from the spec: coercion predicate `maybeBool()`; coincides with
the authoritative tag for a strongly-typed backend. -/
def maybeBoolB : JsonValue → Bool := isBoolB

/-- Modelled from the spec: coercion predicate `maybeNull()`; coincides with
the authoritative tag for a strongly-typed backend. -/
def maybeNullB : JsonValue → Bool := isNullB

/-- Modelled from the spec: coercion predicate `maybeDouble()`: any numeric
value can be read as a double. -/
def maybeDoubleB : JsonValue → Bool := isNumberB

/-- Modelled from the spec: coercion predicate `maybeInteger()`: integer-typed
values, and double-typed values holding an integral number (as in the
std_string_adapter sources, where only a string parsing fully as an int64 is
maybe-integer, `"2.5"` is not). -/
def maybeIntegerB : JsonValue → Bool
  | .int _ => true
  | .num q => q.den == 1
  | _ => false

/-- Accessor `asDouble()` (throwing form): numeric values as rationals.  The
visitor only calls it under a `maybeDouble`/`isNumber` guard; other cases are
given a junk value. -/
def asDoubleQ : JsonValue → Rat
  | .int i => (i : Rat)
  | .num q => q
  | _ => 0

/-- Accessor `bool asDouble(double &)`: succeeds exactly on numeric values. -/
def asDoubleOpt : JsonValue → Option Rat
  | .int i => some (i : Rat)
  | .num q => some q
  | _ => none

/-- Accessor `bool asInteger(int64_t &)`: succeeds on integer-typed values and
on double-typed values holding an integral number (lossless conversion). -/
def asIntegerOpt : JsonValue → Option Int
  | .int i => some i
  | .num q => if q.den == 1 then some q.num else none
  | _ => none

/-- Accessor `asString()`: the visitor only calls it under a string guard. -/
def asStringS : JsonValue → String
  | .str s => s
  | _ => ""

/-- Array elements (`asArray()` / `getArray()` iteration). -/
def elemsOf : JsonValue → List JsonValue
  | .arr xs => xs
  | _ => []

/-- Object members in document order (`asObject()` iteration). -/
def membersOf : JsonValue → List (String × JsonValue)
  | .obj ms => ms
  | _ => []

/-- Object member lookup `object.find(name) != object.end()`. -/
def hasMember (ms : List (String × JsonValue)) (name : String) : Bool :=
  ms.any (fun m => m.1 == name)

/-- Truncation toward zero, the behaviour of `static_cast<int64_t>(double)`
for in-range values. -/
def ratTruncToInt (q : Rat) : Int :=
  if 0 ≤ q then ⌊q⌋ else ⌈q⌉

/-- Modelled from the spec: `utils::u8_strlen` (utils/utf8_utils.hpp is not
among the sources; the spec requires the length of a string to be measured in
Unicode code points).  A Lean `String` is a sequence of Unicode scalar values,
so its length is the code-point count. -/
def u8Strlen (s : String) : Int :=
  (s.length : Int)

mutual

/-- Adapter equality `equalTo(other, true)` (strict mode).  Modelled from the
spec: the comparison operation lives in the adapter capability
(`basic_adapter.hpp` is not among the sources).  Values of the same JSON type
compare componentwise; the two numeric representations compare by numeric
value (both are numbers); different types never compare equal. -/
def jsonEqStrict : JsonValue → JsonValue → Bool
  | .null, .null => true
  | .bool a, .bool b => a == b
  | .int a, .int b => a == b
  | .num a, .num b => a == b
  | .int a, .num b => ((a : Rat) == b)
  | .num a, .int b => (a == (b : Rat))
  | .str a, .str b => a == b
  | .arr a, .arr b => jsonListEqStrict a b
  | .obj a, .obj b => jsonMembersEqStrict a b
  | _, _ => false

/-- Elementwise strict equality of array contents. -/
def jsonListEqStrict : List JsonValue → List JsonValue → Bool
  | [], [] => true
  | x :: xs, y :: ys => jsonEqStrict x y && jsonListEqStrict xs ys
  | _, _ => false

/-- Memberwise strict equality of object contents. -/
def jsonMembersEqStrict : List (String × JsonValue) → List (String × JsonValue) → Bool
  | [], [] => true
  | (k, v) :: xs, (l, w) :: ys => k == l && jsonEqStrict v w && jsonMembersEqStrict xs ys
  | _, _ => false

end

end Valijson

namespace Valijson

/-! ## Subschema metadata (subschema.hpp)

The optional title, description and id of a `valijson::Subschema`, stored as
`boost::optional<std::string>` members, with throwing getters, boolean
predicates and overwriting setters.  (The constraint list of a Subschema is
embedded separately as part of the constraint model.) -/

/-- The metadata part of `valijson::Subschema`: description, id and title,
each a `boost::optional<std::string>` that starts empty. -/
structure SubschemaMeta where
  description : Option String
  id : Option String
  title : Option String

/-- A default-constructed Subschema: no description, id or title. -/
def SubschemaMeta.init : SubschemaMeta :=
  ⟨none, none, none⟩

/-- `Subschema::getDescription`: returns the stored description, or throws
`std::runtime_error` (modelled as `Except.error` with the thrown message). -/
def SubschemaMeta.getDescription (s : SubschemaMeta) : Except String String :=
  match s.description with
  | some d => .ok d
  | none => .error "Schema does not have a description"

/-- `Subschema::getId`: returns the stored id, or throws. -/
def SubschemaMeta.getId (s : SubschemaMeta) : Except String String :=
  match s.id with
  | some v => .ok v
  | none => .error "Schema does not have an ID"

/-- `Subschema::getTitle`: returns the stored title, or throws. -/
def SubschemaMeta.getTitle (s : SubschemaMeta) : Except String String :=
  match s.title with
  | some v => .ok v
  | none => .error "Schema does not have a title"

/-- `Subschema::hasDescription`: whether the optional holds a value. -/
def SubschemaMeta.hasDescription (s : SubschemaMeta) : Bool :=
  s.description.isSome

/-- `Subschema::hasId`. -/
def SubschemaMeta.hasId (s : SubschemaMeta) : Bool :=
  s.id.isSome

/-- `Subschema::hasTitle`. -/
def SubschemaMeta.hasTitle (s : SubschemaMeta) : Bool :=
  s.title.isSome

/-- `Subschema::setDescription`: overwrites the optional. -/
def SubschemaMeta.setDescription (s : SubschemaMeta) (d : String) : SubschemaMeta :=
  { s with description := some d }

/-- `Subschema::setId`. -/
def SubschemaMeta.setId (s : SubschemaMeta) (v : String) : SubschemaMeta :=
  { s with id := some v }

/-- `Subschema::setTitle`. -/
def SubschemaMeta.setTitle (s : SubschemaMeta) (v : String) : SubschemaMeta :=
  { s with title := some v }

end Valijson

namespace Valijson
namespace ValidationResults

/-! ## ValidationResults (validation_results.hpp)

The Path-based revision: one canonical path of segments, from which both the
legacy bracket context and the RFC 6901 JSON Pointer are synthesized at
push time. -/

/-- What kind of traversal a path segment performs. -/
inductive Kind where
  | kArray
  | kObject
deriving Repr, DecidableEq

/-- One segment of the canonical error path: a traversal kind plus the index
or property name (already rendered as a string). -/
structure Segment where
  kind : Kind
  name : String
deriving Repr, DecidableEq

/-- `ValidationResults::Path`. -/
abbrev Path := List Segment

/-- `ValidationResults::Error`: legacy context, description, JSON Pointer. -/
structure Error where
  context : List String
  description : String
  jsonPointer : String
deriving Repr, DecidableEq

/-- RFC 6901 escaping of one token: `~` becomes `~0`, `/` becomes `~1`,
working over the character list of the token. -/
def escapeChars : List Char → List Char
  | [] => []
  | c :: rest =>
    (if c = '~' then ['~', '0'] else if c = '/' then ['~', '1'] else [c]) ++ escapeChars rest

/-- `ValidationResults::escapeJsonPointerToken`. -/
def escapeJsonPointerToken (token : String) : String :=
  ⟨escapeChars token.data⟩

/-- How one segment is rendered in the legacy context: `["name"]` for object
keys, `[name]` for array indexes. -/
def decorateSegment (kind : Kind) (name : String) : String :=
  match kind with
  | .kObject => "[\"" ++ name ++ "\"]"
  | .kArray => "[" ++ name ++ "]"

/-- `ValidationResults::toContext`: root sentinel followed by the decorated
segments. -/
def toContext (path : Path) : List String :=
  "<root>" :: path.map (fun seg => decorateSegment seg.kind seg.name)

/-- `ValidationResults::toJsonPointer`: `/` followed by the escaped name, for
every segment in order. -/
def toJsonPointer (path : Path) : String :=
  path.foldl (fun pointer seg => pointer ++ "/" ++ escapeJsonPointerToken seg.name) ""

/-- The Error record that `ValidationResults::pushError(path, description)`
appends: both views synthesized from the one canonical path. -/
def mkError (path : Path) (description : String) : Error :=
  ⟨toContext path, description, toJsonPointer path⟩

/-- `ValidationResults::pushError`: append to the back of the FIFO queue. -/
def pushError (queue : List Error) (path : Path) (description : String) : List Error :=
  queue ++ [mkError path description]

/-- `ValidationResults::popError`: dequeue from the front; `none` when empty. -/
def popError (queue : List Error) : Option (Error × List Error) :=
  match queue with
  | [] => none
  | e :: rest => some (e, rest)

/-- Split a character list at every `/` (the claimed tokenization of a JSON
Pointer; the leading empty piece before the first `/` is dropped by the
caller).  Always returns at least one piece. -/
def splitOnSlash : List Char → List (List Char)
  | [] => [[]]
  | c :: rest =>
    if c = '/' then [] :: splitOnSlash rest
    else
      match splitOnSlash rest with
      | tok :: toks => (c :: tok) :: toks
      | [] => [[c]]

/-- RFC 6901 unescaping of one token: `~0` back to `~`, `~1` back to `/`. -/
def unescapeChars : List Char → List Char
  | [] => []
  | [c] => [c]
  | c1 :: c2 :: rest =>
    if c1 = '~' then
      if c2 = '0' then '~' :: unescapeChars rest
      else if c2 = '1' then '/' :: unescapeChars rest
      else c1 :: unescapeChars (c2 :: rest)
    else c1 :: unescapeChars (c2 :: rest)

/-- The segment sequence denoted by a JSON Pointer string: tokenize at `/`,
drop the leading empty piece, unescape each token. -/
def pointerSegments (s : String) : List String :=
  ((splitOnSlash s.data).drop 1).map (fun cs => ⟨unescapeChars cs⟩)

end ValidationResults
end Valijson

namespace Valijson

/-! ## Constraint model (concrete_constraints.hpp)

A closed tagged-variant set of constraint kinds.  Ordered containers
(`std::map`, `std::set`) are modelled as lists in iteration order (sorted by
key and duplicate-free after schema construction); subschema pointers become
direct subterms, so the schema DAG is unfolded to a finite tree. -/

/-- `TypeConstraint::JsonType`: the named primitive types of a
draft-3/draft-4 `type` keyword. -/
inductive JsonType where
  | kAny
  | kArray
  | kBoolean
  | kInteger
  | kNull
  | kNumber
  | kObject
  | kString
deriving Repr, DecidableEq

mutual

/-- One constraint variant, carrying exactly the data its visitor needs:
integer bounds are `int64_t` (`Int`), numeric bounds are `double` (`Rat`),
subschema references are direct subterms. -/
inductive Constraint where
  | allOf (subschemas : List Subschema)
  | anyOf (subschemas : List Subschema)
  | dependencies (propertyDependencies : List (String × List String))
      (schemaDependencies : List (String × Subschema))
  | enumC (values : List JsonValue)
  | linearItems (itemSubschemas : List Subschema) (additionalItems : Option Subschema)
  | maximumC (maximum : Rat) (exclusiveMaximum : Bool)
  | maxItemsC (maxItems : Int)
  | maxLengthC (maxLength : Int)
  | maxPropertiesC (maxProperties : Int)
  | minimumC (minimum : Rat) (exclusiveMinimum : Bool)
  | minItemsC (minItems : Int)
  | minLengthC (minLength : Int)
  | minPropertiesC (minProperties : Int)
  | multipleOfInt (divisor : Int)
  | multipleOfDouble (divisor : Rat)
  | notC (schema : Subschema)
  | oneOf (subschemas : List Subschema)
  | patternC (source : String)
  | propertiesC (properties : List (String × Subschema))
      (patternProperties : List (String × Subschema))
      (additionalProperties : Option Subschema)
  | requiredC (requiredProperties : List String)
  | singularItems (itemsSubschema : Option Subschema)
  | typeC (jsonTypes : List JsonType) (schemas : List Subschema)
  | uniqueItems

/-- `valijson::Subschema`, validation view: the append-ordered list of
constraints attached to it. -/
inductive Subschema where
  | mk (constraints : List Constraint)

end

/-- An error as recorded by this ValidationVisitor revision: the context
vector it was pushed with, plus the description. -/
structure VError where
  context : List String
  description : String
deriving Repr, DecidableEq

/-- In C++, comparing a `size_t` container size against an `int64_t` bound
converts the bound to `uint64_t` (usual arithmetic conversions); a negative
bound therefore wraps to a huge unsigned value. -/
def asUInt64 (i : Int) : Int :=
  i.emod (2 ^ 64)

/-- `std::numeric_limits<double>::epsilon()`. -/
def epsilonQ : Rat :=
  1 / 2 ^ 52

/-- Round to the nearest integer, ties to even: the rounding used by C
`remainder`.  Modelled over exact rationals. -/
def roundHalfEvenZ (q : Rat) : Int :=
  let f : Int := ⌊q⌋
  let r : Rat := q - (f : Rat)
  if r < 1 / 2 then f
  else if r > 1 / 2 then f + 1
  else if f % 2 = 0 then f else f + 1

/-- C `remainder(x, y)`: `x - n * y` with `n` the nearest integer to `x / y`
(ties to even).  IEEE doubles are modelled as exact rationals, so the
floating-point representation error this tolerance scheme compensates for is
not itself modelled. -/
def remainderQ (x y : Rat) : Rat :=
  x - (roundHalfEvenZ (x / y) : Rat) * y

/-- The context entry appended when descending into array index `i` or when
naming item `i` in a message: `[i]`. -/
def idxSeg (i : Nat) : String :=
  "[" ++ toString i ++ "]"

/-- The context entry appended when descending into object member `name`:
`["name"]`. -/
def keySeg (name : String) : String :=
  "[\"" ++ name ++ "\"]"

/-- Shared tail of the integer multipleOf path: a zero value trivially
passes, otherwise the remainder modulo the divisor must be zero.  (C++ `%` is
truncating division remainder; Lean `%` on `Int` is the euclidean remainder;
the two agree on being zero, which is all this check uses.  A zero divisor is
undefined behaviour in C++ and follows Lean's `i % 0 = i` here.) -/
def multipleOfIntTail (wr : Bool) (ctx : List String) (m : Int) (i : Int) : Bool × List VError :=
  if i = 0 then (true, [])
  else if i % m ≠ 0 then
    (false, if wr then [⟨ctx, "Value should be a multiple of " ++ toString m⟩] else [])
  else (true, [])

/-- Shared tail of the floating multipleOf path: a zero value trivially
passes, otherwise `|remainder(d, m)|` must be within epsilon. -/
def multipleOfDoubleTail (wr : Bool) (ctx : List String) (m : Rat) (d : Rat) : Bool × List VError :=
  if d = 0 then (true, [])
  else if |remainderQ d m| > epsilonQ then
    (false, if wr then [⟨ctx, "Value should be a multiple of " ++ toString m⟩] else [])
  else (true, [])

/-- One named-type alternative of a `type` constraint, as tested by the
switch in `visit(TypeConstraint)`: boolean, integer, null and number fall
back to the maybe-coercions when `strictTypes` is off; any, array, object and
string do not. -/
def namedTypeMatches (strict : Bool) (t : JsonValue) : JsonType → Bool
  | .kAny => true
  | .kArray => isArrayB t
  | .kBoolean => isBoolB t || (!strict && maybeBoolB t)
  | .kInteger => isIntegerB t || (!strict && maybeIntegerB t)
  | .kNull => isNullB t || (!strict && maybeNullB t)
  | .kNumber => isNumberB t || (!strict && maybeDoubleB t)
  | .kObject => isObjectB t
  | .kString => isStringB t

/-- The `ValidatePropertyDependencies` functor iterated by
`applyToPropertyDependencies`: for every dependent property present in the
object, every named dependency must also be present.  With a sink each
missing dependency is its own error and iteration continues; without one the
first missing dependency aborts the iteration. -/
def propertyDepsLoop (wr : Bool) (obj : List (String × JsonValue)) (ctx : List String) :
    List (String × List String) → Bool × List VError
  | [] => (true, [])
  | (p, deps) :: rest =>
    if hasMember obj p then
      let miss := deps.filter (fun d => !hasMember obj d)
      if wr then
        let r := propertyDepsLoop wr obj ctx rest
        (miss.isEmpty && r.1,
          miss.map (fun d => ⟨ctx, "Missing dependency \x27" ++ d ++ "\x27."⟩) ++ r.2)
      else
        if miss.isEmpty then propertyDepsLoop wr obj ctx rest
        else (false, [])
    else propertyDepsLoop wr obj ctx rest

/-- The loop over the required property names of a `required` constraint:
each missing name is its own error with a sink; without one the first missing
name returns false immediately. -/
def requiredLoop (wr : Bool) (obj : List (String × JsonValue)) (ctx : List String) :
    List String → Bool × List VError
  | [] => (true, [])
  | n :: rest =>
    if hasMember obj n then requiredLoop wr obj ctx rest
    else if wr then
      let r := requiredLoop wr obj ctx rest
      (false, ⟨ctx, "Missing required property \x27" ++ n ++ "\x27."⟩ :: r.2)
    else (false, [])

/-- The error pushed for a duplicate pair by the uniqueItems visitor.  Note
that `innerIndex` is the visitor's inner counter, which restarts at zero at
the element after the outer element. -/
def uniqueErr (ctx : List String) (outerIndex innerIndex : Nat) : VError :=
  ⟨ctx, "Elements at indexes #" ++ toString outerIndex ++ " and #" ++ toString innerIndex ++
    " violate uniqueness constraint."⟩

/-- Inner loop of the uniqueItems visitor: compare the outer element against
every later element.  The inner index counter starts from zero at the first
compared element (the element after the outer one), exactly as the visitor
counts it. -/
def uniqueInnerLoop (wr : Bool) (ctx : List String) (x : JsonValue)
    (outerIndex innerIndex : Nat) : List JsonValue → Bool × List VError
  | [] => (true, [])
  | y :: rest =>
    if jsonEqStrict x y then
      if wr then
        let r := uniqueInnerLoop wr ctx x outerIndex (innerIndex + 1) rest
        (false, uniqueErr ctx outerIndex innerIndex :: r.2)
      else (false, [])
    else uniqueInnerLoop wr ctx x outerIndex (innerIndex + 1) rest

/-- Outer loop of the uniqueItems visitor over all pairs.  The C++ loop runs
the outer iterator up to the second-to-last element; running it one further
is equivalent because the inner loop is then empty.  (For an empty array the
C++ bound `--end()` is undefined behaviour; the embedding treats an empty
array as having no pairs.) -/
def uniqueOuterLoop (wr : Bool) (ctx : List String) (outerIndex : Nat) :
    List JsonValue → Bool × List VError
  | [] => (true, [])
  | x :: rest =>
    let r1 := uniqueInnerLoop wr ctx x outerIndex 0 rest
    if !wr && !r1.1 then (false, [])
    else
      let r2 := uniqueOuterLoop wr ctx (outerIndex + 1) rest
      (r1.1 && r2.1, r1.2 ++ r2.2)

end Valijson


namespace Valijson

/-! ## Validation visitor (validation_visitor.hpp)

The recursive evaluator.  Fixed per visitor chain: the regex engine `rx` and
the `strictTypes` flag.  The flag `wr` states whether a `ValidationResults`
sink is attached (`results != NULL`); each function returns its boolean
verdict together with the ordered list of errors pushed to the caller's sink
during the call (always empty when `wr` is false).  `validateSubschemas`
additionally serves two sinks at once (the oneOf visitor hands it a local
sink while child validations still run through the outer visitor), so it tags
every pushed error with the sink it went to: `true` for the results parameter
of the `ValidateSubschemas` functor, `false` for the visitor's own sink. -/

/-- Any list has positive default size (used by the termination measures). -/
theorem sizeOf_list_pos {α : Type} [SizeOf α] (l : List α) : 0 < sizeOf l := by
  cases l <;> simp

/-- Any option has positive default size (used by the termination measures). -/
theorem sizeOf_option_pos {α : Type} [SizeOf α] (o : Option α) : 0 < sizeOf o := by
  cases o <;> simp

variable (rx : String → String → Bool) (strict : Bool)

mutual

/-- `ValidationVisitor::validateSchema`: apply every constraint of the
subschema.  With a sink attached this is `Subschema::apply`, whose `allTrue
&& applyFunction(constraint)` accumulation short-circuits the callback after
the first failure; without one it is `Subschema::applyStrict`, which returns
at the first failure.  Both therefore invoke the visitor on constraints up to
and including the first failing one. -/
def validateSchema (wr : Bool) (t : JsonValue) (ctx : List String) : Subschema → Bool × List VError
  | .mk cs => applyConstraints wr t ctx cs
termination_by s => (sizeOf s, 0)

/-- Constraint iteration of `Subschema::apply` / `applyStrict` as invoked by
`validateSchema`: visit constraints in attachment order until one fails. -/
def applyConstraints (wr : Bool) (t : JsonValue) (ctx : List String) :
    List Constraint → Bool × List VError
  | [] => (true, [])
  | c :: rest =>
    match visitConstraint wr t ctx c with
    | (true, es) =>
      let r := applyConstraints wr t ctx rest
      (r.1, es ++ r.2)
    | (false, es) => (false, es)
termination_by cs => (sizeOf cs, 0)

/-- The per-constraint dispatch: one case per `ValidationVisitor::visit`
overload. -/
def visitConstraint (wr : Bool) (t : JsonValue) (ctx : List String) : Constraint → Bool × List VError
  | .allOf subs =>
    let r := validateSubschemas wr t ctx true false 0 subs
    (r.2.1, r.2.2.map Prod.snd)
  | .anyOf subs =>
    let r := validateSubschemas wr t ctx false true 0 subs
    let es := r.2.2.map Prod.snd
    let summary : List VError :=
      if r.1 == 0 && wr then
        [⟨ctx, "Failed to validate against any child schemas allowed by anyOf constraint."⟩]
      else []
    (!(r.1 == 0), es ++ summary)
  | .dependencies pd sd =>
    if (strict && !isObjectB t) || !maybeObjectB t then (true, [])
    else
      let obj := membersOf t
      let r1 := propertyDepsLoop wr obj ctx pd
      if !wr && !r1.1 then (false, [])
      else
        let r2 := schemaDepsLoop wr t ctx obj sd
        if !wr && !r2.1 then (false, [])
        else (r1.1 && r2.1, r1.2 ++ r2.2)
  | .enumC values =>
    if values.any (fun v => jsonEqStrict v t) then (true, [])
    else (false, if wr then [⟨ctx, "Failed to match against any enum values."⟩] else [])
  | .linearItems items add =>
    if (strict && !isArrayB t) || !maybeArrayB t then (true, [])
    else
      let arr := elemsOf t
      if items.length > 0 then
        if add.isNone && arr.length > items.length then
          if wr then
            let ri := validateItems wr arr ctx 0 items
            linearItemsRest wr arr ctx add ri.1 false
              (⟨ctx, "Array contains more items than allowed by items constraint."⟩ :: ri.2.2)
          else (false, [])
        else
          let ri := validateItems wr arr ctx 0 items
          if !wr && !ri.2.1 then (false, [])
          else linearItemsRest wr arr ctx add ri.1 ri.2.1 ri.2.2
      else linearItemsRest wr arr ctx add 0 true []
  | .maximumC m ex =>
    if (strict && !isNumberB t) || !maybeDoubleB t then (true, [])
    else if ex then
      if asDoubleQ t ≥ m then
        (false, if wr then [⟨ctx, "Expected number less than " ++ toString m⟩] else [])
      else (true, [])
    else
      if asDoubleQ t > m then
        (false, if wr then [⟨ctx, "Expected number less than or equal to" ++ toString m⟩] else [])
      else (true, [])
  | .maxItemsC n =>
    if (strict && !isArrayB t) || !maybeArrayB t then (true, [])
    else if ((elemsOf t).length : Int) ≤ asUInt64 n then (true, [])
    else
      (false, if wr then
        [⟨ctx, "Array should contain no more than " ++ toString n ++ " elements."⟩] else [])
  | .maxLengthC n =>
    if (strict && !isStringB t) || !maybeStringB t then (true, [])
    else if u8Strlen (asStringS t) ≤ n then (true, [])
    else
      (false, if wr then
        [⟨ctx, "String should be no more than " ++ toString n ++ " characters in length."⟩] else [])
  | .maxPropertiesC n =>
    if (strict && !isObjectB t) || !maybeObjectB t then (true, [])
    else if ((membersOf t).length : Int) ≤ asUInt64 n then (true, [])
    else
      (false, if wr then
        [⟨ctx, "Object should have no more than" ++ toString n ++ " properties."⟩] else [])
  | .minimumC m ex =>
    if (strict && !isNumberB t) || !maybeDoubleB t then (true, [])
    else if ex then
      if asDoubleQ t ≤ m then
        (false, if wr then [⟨ctx, "Expected number greater than " ++ toString m⟩] else [])
      else (true, [])
    else
      if asDoubleQ t < m then
        (false, if wr then [⟨ctx, "Expected number greater than or equal to" ++ toString m⟩] else [])
      else (true, [])
  | .minItemsC n =>
    if (strict && !isArrayB t) || !maybeArrayB t then (true, [])
    else if ((elemsOf t).length : Int) ≥ asUInt64 n then (true, [])
    else
      (false, if wr then
        [⟨ctx, "Array should contain no fewer than " ++ toString n ++ " elements."⟩] else [])
  | .minLengthC n =>
    if (strict && !isStringB t) || !maybeStringB t then (true, [])
    else if u8Strlen (asStringS t) ≥ n then (true, [])
    else
      (false, if wr then
        [⟨ctx, "String should be no fewer than " ++ toString n ++ " characters in length."⟩] else [])
  | .minPropertiesC n =>
    if (strict && !isObjectB t) || !maybeObjectB t then (true, [])
    else if ((membersOf t).length : Int) ≥ asUInt64 n then (true, [])
    else
      (false, if wr then
        [⟨ctx, "Object should have no fewer than" ++ toString n ++ " properties."⟩] else [])
  | .multipleOfInt m =>
    if maybeIntegerB t then
      match asIntegerOpt t with
      | none =>
        (false, if wr then
          [⟨ctx, "Value could not be converted to an integer for multipleOf check"⟩] else [])
      | some i => multipleOfIntTail wr ctx m i
    else if maybeDoubleB t then
      match asDoubleOpt t with
      | none =>
        (false, if wr then
          [⟨ctx, "Value could not be converted to a double for multipleOf check"⟩] else [])
      | some d => multipleOfIntTail wr ctx m (ratTruncToInt d)
    else (true, [])
  | .multipleOfDouble m =>
    if maybeDoubleB t then
      match asDoubleOpt t with
      | none =>
        (false, if wr then
          [⟨ctx, "Value could not be converted to a number to check if it is a multiple of " ++
            toString m⟩] else [])
      | some d => multipleOfDoubleTail wr ctx m d
    else if maybeIntegerB t then
      match asIntegerOpt t with
      | none =>
        (false, if wr then
          [⟨ctx, "Value could not be converted to a number to check if it is a multiple of " ++
            toString m⟩] else [])
      | some i => multipleOfDoubleTail wr ctx m (i : Rat)
    else (true, [])
  | .notC s =>
    let r := validateSchema false t ctx s
    if r.1 then
      (false, if wr then
        [⟨ctx, "Target should not validate against schema specified in \x27not\x27 constraint."⟩]
        else [])
    else (true, [])
  | .oneOf subs =>
    let r := validateSubschemas wr t ctx true true 0 subs
    let callerEs := (r.2.2.filter (fun e => !e.1)).map Prod.snd
    let childEs := (r.2.2.filter (fun e => e.1)).map Prod.snd
    if r.1 == 0 then
      (false, callerEs ++
        (if wr then
          childEs ++
            [⟨ctx, "Failed to validate against any child schemas allowed by oneOf constraint."⟩]
        else []))
    else if !(r.1 == 1) then
      (false, callerEs ++
        (if wr then [⟨ctx, "Failed to validate against exactly one child schema."⟩] else []))
    else (true, callerEs)
  | .patternC pat =>
    if (strict && !isStringB t) || !maybeStringB t then (true, [])
    else if !(rx pat (asStringS t)) then
      (false, if wr then
        [⟨ctx, "Failed to match regex specified by \x27pattern\x27 constraint."⟩] else [])
    else (true, [])
  | .propertiesC props patProps add =>
    if (strict && !isObjectB t) || !maybeObjectB t then (true, [])
    else validateProperties wr ctx props patProps add (membersOf t)
  | .requiredC names =>
    if (strict && !isObjectB t) || !maybeObjectB t then
      (false, if wr then
        [⟨ctx, "Object required to validate \x27required\x27 properties."⟩] else [])
    else requiredLoop wr (membersOf t) ctx names
  | .singularItems optSub =>
    if !isArrayB t then (true, [])
    else
      match optSub with
      | none => (true, [])
      | some sub =>
        iterateElems wr ctx sub
          (fun i => ⟨ctx, "Failed to validate item #" ++ toString i ++ " in array."⟩)
          0 (elemsOf t)
  | .typeC jsonTypes schemas =>
    if jsonTypes.any (namedTypeMatches strict t) then (true, [])
    else
      let r := typeSchemasLoop wr t ctx schemas
      if r.1 then (true, r.2)
      else
        (false, r.2 ++
          (if wr then [⟨ctx, "Value type not permitted by \x27type\x27 constraint."⟩] else []))
  | .uniqueItems =>
    if (strict && !isArrayB t) || !maybeArrayB t then (true, [])
    else uniqueOuterLoop wr ctx 0 (elemsOf t)
termination_by c => (sizeOf c, 0)

/-- The `ValidateSubschemas` functor as iterated by `applyToSubschemas`:
validate the target against each child subschema in order, counting
successes, with the continue-on-success / continue-on-failure policy of the
calling visitor.  Returns (number validated, the validated flag, events); an
event is `(true, e)` for an error pushed to the functor's results parameter
(the per-child summary) and `(false, e)` for one pushed through the visitor
during child validation. -/
def validateSubschemas (wr : Bool) (t : JsonValue) (ctx : List String)
    (contSucc contFail : Bool) (idx : Nat) :
    List Subschema → Nat × Bool × List (Bool × VError)
  | [] => (0, true, [])
  | s :: rest =>
    let r := validateSchema wr t ctx s
    let esE := r.2.map (fun e => ((false : Bool), e))
    if r.1 then
      if contSucc then
        let r2 := validateSubschemas wr t ctx contSucc contFail (idx + 1) rest
        (r2.1 + 1, r2.2.1, esE ++ r2.2.2)
      else (1, true, esE)
    else
      let summ : List (Bool × VError) :=
        if wr then
          [(true, ⟨ctx, "Failed to validate against child schema #" ++ toString idx ++ "."⟩)]
        else []
      if contFail then
        let r2 := validateSubschemas wr t ctx contSucc contFail (idx + 1) rest
        (r2.1, false, esE ++ summ ++ r2.2.2)
      else (0, false, esE ++ summ)
termination_by l => (sizeOf l, 0)

/-- The `ValidateItems` functor as iterated by `applyToItemSubschemas`:
validate array element `idx` against the `idx`-th item subschema, stopping
when the array runs out of elements; `continueOnFailure` is whether a sink is
attached.  Returns (number validated, the validated flag, errors); the
per-item summary error is pushed with the item's context. -/
def validateItems (wr : Bool) (arr : List JsonValue) (ctx : List String) (idx : Nat) :
    List Subschema → Nat × Bool × List VError
  | [] => (0, true, [])
  | sub :: rest =>
    match arr[idx]? with
    | none => (0, true, [])
    | some item =>
      let newCtx := ctx ++ [idxSeg idx]
      let r := validateSchema wr item newCtx sub
      if r.1 then
        let r2 := validateItems wr arr ctx (idx + 1) rest
        (r2.1 + 1, r2.2.1, r.2 ++ r2.2.2)
      else
        let summ : List VError :=
          if wr then
            [⟨newCtx, "Failed to validate item #" ++ toString idx ++
              " against corresponding item schema."⟩]
          else []
        if wr then
          let r2 := validateItems wr arr ctx (idx + 1) rest
          (r2.1, false, r.2 ++ summ ++ r2.2.2)
        else (0, false, r.2 ++ summ)
termination_by l => (sizeOf l, 0)

/-- Per-element validation of a list of array elements against one fixed
subschema, starting at index `idx`: the additionalItems loop of the
linearItems visitor and the element loop of the singularItems visitor, which
differ only in the summary error they push (`mkE`).  On failure, with a sink
the summary is pushed and iteration continues; without one the loop returns
false immediately. -/
def iterateElems (wr : Bool) (ctx : List String) (sub : Subschema) (mkE : Nat → VError)
    (idx : Nat) : List JsonValue → Bool × List VError
  | [] => (true, [])
  | item :: rest =>
    let newCtx := ctx ++ [idxSeg idx]
    let r := validateSchema wr item newCtx sub
    if r.1 then
      let r2 := iterateElems wr ctx sub mkE (idx + 1) rest
      (r2.1, r.2 ++ r2.2)
    else
      if wr then
        let r2 := iterateElems wr ctx sub mkE (idx + 1) rest
        (false, r.2 ++ [mkE idx] ++ r2.2)
      else (false, r.2)
termination_by vals => (sizeOf sub, vals.length + 1)

/-- Tail of the linearItems visitor after the positional item subschemas have
been applied: elements from index `numValidated` onwards are validated
against the additionalItems subschema if present; otherwise their presence is
an error. -/
def linearItemsRest (wr : Bool) (arr : List JsonValue) (ctx : List String)
    (add : Option Subschema) (numValidated : Nat) (validated : Bool) (acc : List VError) :
    Bool × List VError :=
  if numValidated < arr.length then
    match add with
    | some sub =>
      let r := iterateElems wr ctx sub
        (fun i => ⟨ctx, "Failed to validate item #" ++ toString i ++
          " against additional items schema."⟩)
        numValidated (arr.drop numValidated)
      if !wr && !r.1 then (false, [])
      else (validated && r.1, acc ++ r.2)
    | none =>
      if wr then
        (false, acc ++ [⟨ctx, "Cannot validate item #" ++ toString numValidated ++
          " or greater using \x27items\x27 constraint or \x27additionalItems\x27 constraint."⟩])
      else (false, [])
  else (validated, acc)
termination_by (sizeOf add, 0)

/-- The member loop of the properties visitor: each member of the target
object is validated against the matching literal property subschema, against
every matching patternProperties subschema, and, when neither matched,
against the additionalProperties subschema if present (its absence is a
failure). -/
def validateProperties (wr : Bool) (ctx : List String)
    (props patProps : List (String × Subschema)) (add : Option Subschema) :
    List (String × JsonValue) → Bool × List VError
  | [] => (true, [])
  | (name, value) :: rest =>
    let newCtx := ctx ++ [keySeg name]
    let s1 := literalPropSearch wr value newCtx ctx name props
    if !wr && !s1.2.1 then (false, [])
    else
      let s2 := patternPropsLoop wr value newCtx ctx name patProps
      if !wr && !s2.2.1 then (false, [])
      else
        let s3 : Bool × List VError :=
          if s1.1 || s2.1 then (true, [])
          else
            match add with
            | some sub =>
              let r := validateSchema wr value newCtx sub
              if r.1 then (true, r.2)
              else
                (false, r.2 ++
                  (if wr then
                    [⟨ctx, "Failed to validate property \x27" ++ name ++
                      "\x27 against schema in additionalProperties constraint."⟩]
                  else []))
            | none =>
              (false,
                if wr then
                  [⟨ctx, "Failed to match property name \x27" ++ name ++
                    "\x27 to any names in \x27properties\x27 or regexes in \x27patternProperties\x27"⟩]
                else [])
        if !wr && !s3.1 then (false, [])
        else
          let rr := validateProperties wr ctx props patProps add rest
          (s1.2.1 && s2.2.1 && s3.1 && rr.1, s1.2.2 ++ s2.2.2 ++ s3.2 ++ rr.2)
termination_by ms => (sizeOf props + sizeOf patProps + sizeOf add, ms.length + 1)
decreasing_by
  · apply Prod.Lex.left
    have h1 := sizeOf_list_pos patProps
    have h2 := sizeOf_option_pos add
    omega
  · apply Prod.Lex.left
    have h1 := sizeOf_list_pos props
    have h2 := sizeOf_option_pos add
    omega
  · apply Prod.Lex.left
    have h1 := sizeOf_list_pos props
    have h2 := sizeOf_list_pos patProps
    simp
    omega
  · apply Prod.Lex.right
    simp [List.length_cons]

/-- `constraint.properties.find(propertyName)` followed by validation of the
member value against the found subschema: an associative search with unique
keys, first match wins.  Returns (name matched, validated flag, errors). -/
def literalPropSearch (wr : Bool) (value : JsonValue) (newCtx ctx : List String)
    (name : String) : List (String × Subschema) → Bool × Bool × List VError
  | [] => (false, true, [])
  | (k, sub) :: rest =>
    if k == name then
      let r := validateSchema wr value newCtx sub
      if r.1 then (true, true, r.2)
      else
        (true, false, r.2 ++
          (if wr then
            [⟨ctx, "Failed to validate against schema associated with property name \x27" ++
              name ++ "\x27 in properties constraint."⟩]
          else []))
    else literalPropSearch wr value newCtx ctx name rest
termination_by l => (sizeOf l, 0)

/-- The patternProperties loop of the properties visitor: every entry whose
regex matches the member name contributes its own validation of the member
value.  Returns (any regex matched, validated flag, errors); without a sink
the first failing entry aborts. -/
def patternPropsLoop (wr : Bool) (value : JsonValue) (newCtx ctx : List String)
    (name : String) : List (String × Subschema) → Bool × Bool × List VError
  | [] => (false, true, [])
  | (pat, sub) :: rest =>
    if rx pat name then
      let r := validateSchema wr value newCtx sub
      if r.1 then
        let r2 := patternPropsLoop wr value newCtx ctx name rest
        (true, r2.2.1, r.2 ++ r2.2.2)
      else if wr then
        let r2 := patternPropsLoop wr value newCtx ctx name rest
        (true, false, r.2 ++
          [⟨ctx, "Failed to validate against schema associated with regex \x27" ++ pat ++
            "\x27 in patternProperties constraint."⟩] ++ r2.2.2)
      else (true, false, r.2)
    else patternPropsLoop wr value newCtx ctx name rest
termination_by l => (sizeOf l, 0)

/-- The draft-3 schema-typed alternatives loop of the type visitor: validate
the target against each alternative through the outer visitor (so failing
alternatives push their errors to the caller's sink), returning at the first
success. -/
def typeSchemasLoop (wr : Bool) (t : JsonValue) (ctx : List String) :
    List Subschema → Bool × List VError
  | [] => (false, [])
  | s :: rest =>
    let r := validateSchema wr t ctx s
    if r.1 then (true, r.2)
    else
      let r2 := typeSchemasLoop wr t ctx rest
      (r2.1, r.2 ++ r2.2)
termination_by l => (sizeOf l, 0)

/-- The `ValidateSchemaDependencies` functor as iterated by
`applyToSchemaDependencies`: for every dependent property present in the
object, the whole target must validate against the dependent subschema
(through the outer visitor, so its errors go to the caller's sink). -/
def schemaDepsLoop (wr : Bool) (t : JsonValue) (ctx : List String)
    (obj : List (String × JsonValue)) : List (String × Subschema) → Bool × List VError
  | [] => (true, [])
  | (p, dep) :: rest =>
    if hasMember obj p then
      let r := validateSchema wr t ctx dep
      if r.1 then
        let r2 := schemaDepsLoop wr t ctx obj rest
        (r2.1, r.2 ++ r2.2)
      else if wr then
        let r2 := schemaDepsLoop wr t ctx obj rest
        (false, r.2 ++ [⟨ctx, "Failed to validate against dependent schema."⟩] ++ r2.2)
      else (false, r.2)
    else schemaDepsLoop wr t ctx obj rest
termination_by l => (sizeOf l, 0)

end

end Valijson

namespace Valijson

/-! ## Theorems: Subschema metadata (claim C10) -/

/-- C10: for each of title, description and id, the getter returns a value
exactly when the corresponding predicate holds, throws `std::runtime_error`
exactly when it does not, a freshly constructed Subschema has none of the
three set, and after a set the getter returns exactly the string that was
set. -/
theorem subschema_meta_getters (m : SubschemaMeta) (s : String) :
    ((∃ v, m.getTitle = .ok v) ↔ m.hasTitle = true) ∧
    (m.getTitle = .error "Schema does not have a title" ↔ m.hasTitle = false) ∧
    ((∃ v, m.getDescription = .ok v) ↔ m.hasDescription = true) ∧
    (m.getDescription = .error "Schema does not have a description" ↔
      m.hasDescription = false) ∧
    ((∃ v, m.getId = .ok v) ↔ m.hasId = true) ∧
    (m.getId = .error "Schema does not have an ID" ↔ m.hasId = false) ∧
    ((m.setTitle s).getTitle = .ok s) ∧
    ((m.setDescription s).getDescription = .ok s) ∧
    ((m.setId s).getId = .ok s) ∧
    (SubschemaMeta.init.hasTitle = false ∧ SubschemaMeta.init.hasDescription = false ∧
      SubschemaMeta.init.hasId = false) := by
  obtain ⟨d, i, t⟩ := m
  refine ⟨?_, ?_, ?_, ?_, ?_, ?_, ?_, ?_, ?_, ?_, ?_, ?_⟩ <;>
    cases d <;> cases i <;> cases t <;>
      simp [SubschemaMeta.getTitle, SubschemaMeta.getDescription, SubschemaMeta.getId,
        SubschemaMeta.hasTitle, SubschemaMeta.hasDescription, SubschemaMeta.hasId,
        SubschemaMeta.setTitle, SubschemaMeta.setDescription, SubschemaMeta.setId,
        SubschemaMeta.init]

end Valijson

namespace Valijson
namespace ValidationResults

/-! ## Theorems: path / pointer consistency (claim C8) -/

/-- Escaped tokens contain no slash, so tokenizing a pointer at slashes
recovers the escaped segments. -/
theorem escapeChars_no_slash (cs : List Char) : '/' ∉ escapeChars cs := by
  induction cs with
  | nil => simp [escapeChars]
  | cons c rest ih =>
    by_cases h1 : c = '~' <;> by_cases h2 : c = '/' <;>
      simp [escapeChars, h1, h2, ih]
    exact fun h => h2 h.symm

/-- Unescaping inverts escaping. -/
theorem unescapeChars_escapeChars (cs : List Char) :
    unescapeChars (escapeChars cs) = cs := by
  induction cs with
  | nil => simp [escapeChars, unescapeChars]
  | cons c rest ih =>
    by_cases h1 : c = '~'
    · subst h1; simp [escapeChars, unescapeChars, ih]
    · by_cases h2 : c = '/'
      · subst h2; simp [escapeChars, unescapeChars, ih]
      · simp only [escapeChars, if_neg h1, if_neg h2, List.singleton_append]
        cases he : escapeChars rest with
        | nil =>
          simp [unescapeChars]
          rw [he] at ih
          simpa [unescapeChars] using ih
        | cons e es =>
          rw [he] at ih
          simp [unescapeChars, h1, ih]

theorem data_append (a b : String) : (a ++ b).data = a.data ++ b.data := rfl

theorem string_eta (s : String) : String.mk s.data = s := rfl

theorem toJsonPointer_loop (p : Path) (init : String) :
    (p.foldl (fun pointer seg => pointer ++ "/" ++ escapeJsonPointerToken seg.name) init).data
      = init.data ++ p.foldr (fun seg acc => '/' :: (escapeChars seg.name.data ++ acc)) [] := by
  induction p generalizing init with
  | nil => simp
  | cons seg rest ih =>
    simp only [List.foldl_cons, List.foldr_cons, ih, data_append]
    simp [escapeJsonPointerToken]

theorem splitOnSlash_append_no_slash (cs ds : List Char) (h : '/' ∉ cs)
    {hd : List Char} {tl : List (List Char)} (hds : splitOnSlash ds = hd :: tl) :
    splitOnSlash (cs ++ ds) = (cs ++ hd) :: tl := by
  induction cs with
  | nil => simpa using hds
  | cons c rest ih =>
    have hc : ¬c = '/' := by intro hc; exact h (by simp [hc])
    have h' : '/' ∉ rest := by intro hr; exact h (by simp [hr])
    simp only [List.cons_append, splitOnSlash, if_neg hc]
    rw [show rest.append ds = rest ++ ds from rfl, ih h']

theorem splitOnSlash_ptrChars (p : Path) :
    splitOnSlash (p.foldr (fun seg acc => '/' :: (escapeChars seg.name.data ++ acc)) []) =
      [] :: p.map (fun seg => escapeChars seg.name.data) := by
  induction p with
  | nil => simp [splitOnSlash]
  | cons seg rest ih =>
    simp only [List.foldr_cons, List.map_cons]
    rw [show splitOnSlash ('/' :: (escapeChars seg.name.data ++
        rest.foldr (fun seg acc => '/' :: (escapeChars seg.name.data ++ acc)) [])) =
        [] :: splitOnSlash (escapeChars seg.name.data ++
          rest.foldr (fun seg acc => '/' :: (escapeChars seg.name.data ++ acc)) [])
      from by simp [splitOnSlash]]
    rw [splitOnSlash_append_no_slash _ _ (escapeChars_no_slash seg.name.data) ih]
    simp

theorem splitOnSlash_toJsonPointer (p : Path) :
    splitOnSlash (toJsonPointer p).data = [] :: p.map (fun seg => escapeChars seg.name.data) := by
  have hdata : (toJsonPointer p).data =
      p.foldr (fun seg acc => '/' :: (escapeChars seg.name.data ++ acc)) [] := by
    simpa using toJsonPointer_loop p ""
  rw [hdata, splitOnSlash_ptrChars]

/-- C8: the Error pushed for a path carries a JSON Pointer whose tokenization
at slashes, after RFC 6901 unescaping, is exactly the path's segment-name
sequence, and a context whose entries after the root sentinel are exactly
those same segments decorated per their traversal kind: the two derived
representations agree about the error location for every path. -/
theorem pushError_pointer_context_agree (p : Path) (d : String) :
    pointerSegments (mkError p d).jsonPointer = p.map Segment.name ∧
    (mkError p d).context.drop 1 =
      List.zipWith decorateSegment (p.map Segment.kind)
        (pointerSegments (mkError p d).jsonPointer) := by
  have hseg : pointerSegments (mkError p d).jsonPointer = p.map Segment.name := by
    simp only [mkError, pointerSegments, splitOnSlash_toJsonPointer, List.drop_succ_cons,
      List.drop_zero, List.map_map]
    refine List.map_congr_left ?_
    intro seg _
    simp [Function.comp, unescapeChars_escapeChars, string_eta]
  refine ⟨hseg, ?_⟩
  rw [hseg]
  simp only [mkError, toContext, List.drop_succ_cons, List.drop_zero]
  induction p with
  | nil => simp
  | cons seg rest ih => simp [ih]

end ValidationResults
end Valijson

namespace Valijson

/-! ## Theorems: per-constraint characterizations (claims C2, C5, C6) and
concrete evaluations at the failing inputs (claims C3, C4, C7, C9) -/

theorem validateSubschemas_count (rx : String → String → Bool) (strict wr : Bool)
    (t : JsonValue) (ctx : List String) (idx : Nat) (l : List Subschema) :
    (validateSubschemas rx strict wr t ctx true true idx l).1 =
      l.countP (fun s => (validateSchema rx strict wr t ctx s).1) := by
  induction l generalizing idx with
  | nil => simp [validateSubschemas]
  | cons s rest ih =>
    simp only [validateSubschemas]
    rcases h : validateSchema rx strict wr t ctx s with ⟨b, es⟩
    cases b <;> simp [List.countP_cons, h, ih (idx + 1)]

/-- C2: a oneOf constraint is satisfied exactly when the target validates
against exactly one of its child subschemas: zero matching children fail,
one succeeds, two or more fail. -/
theorem oneOf_exactly_one (rx : String → String → Bool) (strict wr : Bool)
    (t : JsonValue) (ctx : List String) (subs : List Subschema) :
    ((visitConstraint rx strict wr t ctx (.oneOf subs)).1 = true ↔
      subs.countP (fun s => (validateSchema rx strict wr t ctx s).1) = 1) := by
  have hc := validateSubschemas_count rx strict wr t ctx 0 subs
  simp only [visitConstraint]
  rcases h : validateSubschemas rx strict wr t ctx true true 0 subs with ⟨n, v, evs⟩
  rw [h] at hc
  simp only at hc
  rw [← hc]
  by_cases h0 : n = 0
  · simp [h0]
  · by_cases h1 : n = 1
    · simp [h0, h1]
    · simp [h0, h1]

/-- C5: each size, numeric-range and pattern constraint is vacuously
satisfied, with no error pushed, on a target whose runtime type is not the
constraint's applicable type (number for maximum/minimum, array for
maxItems/minItems, string for maxLength/minLength/pattern, object for
maxProperties/minProperties), in both strict and loose typing and in both
sink modes. -/
theorem size_range_pattern_vacuous (rx : String → String → Bool) (strict wr : Bool)
    (ctx : List String) (bound : Rat) (ex : Bool) (n : Int) (pat : String)
    (tNum tStr tArr tObj : JsonValue)
    (hn : isNumberB tNum = false) (hs : isStringB tStr = false)
    (ha : isArrayB tArr = false) (ho : isObjectB tObj = false) :
    visitConstraint rx strict wr tNum ctx (.maximumC bound ex) = (true, []) ∧
    visitConstraint rx strict wr tNum ctx (.minimumC bound ex) = (true, []) ∧
    visitConstraint rx strict wr tArr ctx (.maxItemsC n) = (true, []) ∧
    visitConstraint rx strict wr tArr ctx (.minItemsC n) = (true, []) ∧
    visitConstraint rx strict wr tStr ctx (.maxLengthC n) = (true, []) ∧
    visitConstraint rx strict wr tStr ctx (.minLengthC n) = (true, []) ∧
    visitConstraint rx strict wr tObj ctx (.maxPropertiesC n) = (true, []) ∧
    visitConstraint rx strict wr tObj ctx (.minPropertiesC n) = (true, []) ∧
    visitConstraint rx strict wr tStr ctx (.patternC pat) = (true, []) := by
  refine ⟨?_, ?_, ?_, ?_, ?_, ?_, ?_, ?_, ?_⟩ <;>
    simp [visitConstraint, maybeDoubleB, maybeArrayB, maybeStringB, maybeObjectB,
      hn, hs, ha, ho]

theorem size_range_pattern_vacuous_witness :
    visitConstraint (fun _ _ => false) true true (.str "a") [] (.maximumC 1 false) =
      (true, []) :=
  (size_range_pattern_vacuous (fun _ _ => false) true true [] 1 false 0 "p"
    (.str "a") (.int 0) (.int 0) (.int 0) rfl rfl rfl rfl).1

theorem requiredLoop_fst (wr : Bool) (obj : List (String × JsonValue)) (ctx : List String)
    (names : List String) :
    (requiredLoop wr obj ctx names).1 = names.all (fun n => hasMember obj n) := by
  induction names with
  | nil => simp [requiredLoop]
  | cons n rest ih =>
    by_cases h : hasMember obj n <;> cases wr <;> simp [requiredLoop, h, ih]

theorem requiredLoop_snd (obj : List (String × JsonValue)) (ctx : List String)
    (names : List String) :
    (requiredLoop true obj ctx names).2 =
      (names.filter (fun n => !hasMember obj n)).map
        (fun n => ⟨ctx, "Missing required property \x27" ++ n ++ "\x27."⟩) := by
  induction names with
  | nil => simp [requiredLoop]
  | cons n rest ih =>
    by_cases h : hasMember obj n <;> simp [requiredLoop, h, ih]

/-- C6: a required constraint fails outright on a non-object target, with
exactly one error when a sink is attached; on an object target it succeeds
exactly when every required name is present as a member key, and with a sink
each missing name contributes its own error, in listed order. -/
theorem required_constraint_spec (rx : String → String → Bool) (strict wr : Bool)
    (ctx : List String) (names : List String) (members : List (String × JsonValue))
    (t : JsonValue) (h : isObjectB t = false) :
    (visitConstraint rx strict wr t ctx (.requiredC names) =
      (false, if wr then
        [⟨ctx, "Object required to validate \x27required\x27 properties."⟩] else [])) ∧
    ((visitConstraint rx strict wr (.obj members) ctx (.requiredC names)).1 =
      names.all (fun n => hasMember members n)) ∧
    ((visitConstraint rx strict true (.obj members) ctx (.requiredC names)).2 =
      (names.filter (fun n => !hasMember members n)).map
        (fun n => ⟨ctx, "Missing required property \x27" ++ n ++ "\x27."⟩)) := by
  refine ⟨?_, ?_, ?_⟩
  · simp [visitConstraint, maybeObjectB, h]
  · simp [visitConstraint, maybeObjectB, isObjectB, membersOf, requiredLoop_fst]
  · simp [visitConstraint, maybeObjectB, isObjectB, membersOf, requiredLoop_snd]

theorem required_constraint_spec_witness :
    (visitConstraint (fun _ _ => false) true true (.int 3) []
      (.requiredC ["a"])).1 = false := by
  have h := required_constraint_spec (fun _ _ => false) true true [] ["a"]
    [("a", JsonValue.null)] (.int 3) (by rfl)
  rw [h.1]

/-- C3 (code evaluation at the failing input): with a sink attached, a oneOf
of string-or-number against the string target validates against exactly one
child, yet the caller's sink receives the type error produced by the rejected
number alternative: child validations run through the outer visitor, not the
fresh local sink, which only ever holds the per-child summaries. -/
theorem oneOf_leaks_rejected_alternative_error :
    visitConstraint (fun _ _ => false) true true (.str "x") []
      (.oneOf [.mk [.typeC [.kString] []], .mk [.typeC [.kNumber] []]]) =
    (true, [⟨[], "Value type not permitted by \x27type\x27 constraint."⟩]) := by
  simp [visitConstraint, validateSubschemas, validateSchema, applyConstraints,
    typeSchemasLoop, namedTypeMatches, isStringB, isNumberB, maybeDoubleB,
    isBoolB, isNullB, isIntegerB, isArrayB, isObjectB, maybeBoolB, maybeNullB,
    maybeIntegerB]

/-- C4 (code evaluation at the failing input): with a sink attached, an anyOf
whose single number child rejects the string target pushes three errors to
the caller's sink: the child's own type error, the per-child summary, and the
anyOf summary; child-level errors are not discarded. -/
theorem anyOf_pushes_child_level_errors :
    visitConstraint (fun _ _ => false) true true (.str "x") []
      (.anyOf [.mk [.typeC [.kNumber] []]]) =
    (false,
      [⟨[], "Value type not permitted by \x27type\x27 constraint."⟩,
       ⟨[], "Failed to validate against child schema #0."⟩,
       ⟨[], "Failed to validate against any child schemas allowed by anyOf constraint."⟩]) := by
  simp [visitConstraint, validateSubschemas, validateSchema, applyConstraints,
    typeSchemasLoop, namedTypeMatches, isStringB, isNumberB, maybeDoubleB,
    isBoolB, isNullB, isIntegerB, isArrayB, isObjectB, maybeBoolB, maybeNullB,
    maybeIntegerB]
  rfl

/-- C7 (code evaluation at the failing input): validating `[1,2,1]` against a
schema holding a uniqueItems constraint, with a sink, returns false but
records the duplicate pair as indexes 0 and 1: the visitor's inner index
counter restarts at zero at the element after the outer element, so the
duplicate actually at index 2 is reported as 1. -/
theorem uniqueItems_misreports_inner_index :
    validateSchema (fun _ _ => false) true true (.arr [.int 1, .int 2, .int 1]) []
      (.mk [.uniqueItems]) =
    (false, [⟨[], "Elements at indexes #0 and #1 violate uniqueness constraint."⟩]) := by
  simp [validateSchema, applyConstraints, visitConstraint, uniqueOuterLoop,
    uniqueInnerLoop, jsonEqStrict, isArrayB, maybeArrayB, elemsOf, uniqueErr]
  rfl

/-- C9 counterexample: the integer multipleOf path does not treat a lossy
int64 conversion as a validation failure: the double-typed target 5/2 is only
maybe-double, is truncated by `static_cast<int64_t>` to 2, and 2 is a
multiple of 2, so validation succeeds where the claim requires failure. -/
theorem multipleOfInt_accepts_lossy_conversion :
    visitConstraint (fun _ _ => false) true true (.num (5 / 2)) []
      (.multipleOfInt 2) = (true, []) := by
  have hden : ((5 : Rat) / 2).den = 2 := by norm_num
  have htr : ratTruncToInt ((5 : Rat) / 2) = 2 := by
    rw [ratTruncToInt, if_pos (by norm_num : (0 : Rat) ≤ 5 / 2)]
    norm_num
  simp [visitConstraint, maybeIntegerB, maybeDoubleB, isNumberB, asDoubleOpt,
    hden, htr, multipleOfIntTail]

/-- C9 amended: for a multipleOf constraint holding an integer divisor, an
integer-typed target converts losslessly and passes iff it is zero or a
multiple of the divisor; a double-typed target holding an integral value
converts losslessly likewise; a double-typed target with a fractional part is
truncated toward zero without error and the truncation decides the check; a
non-numeric target passes vacuously. -/
theorem multipleOfInt_spec (rx : String → String → Bool) (strict wr : Bool)
    (ctx : List String) (m : Int) :
    (∀ i : Int, (visitConstraint rx strict wr (.int i) ctx (.multipleOfInt m)).1 =
        (i == 0 || i % m == 0)) ∧
    (∀ q : Rat, q.den = 1 →
      (visitConstraint rx strict wr (.num q) ctx (.multipleOfInt m)).1 =
        (q.num == 0 || q.num % m == 0)) ∧
    (∀ q : Rat, q.den ≠ 1 →
      (visitConstraint rx strict wr (.num q) ctx (.multipleOfInt m)).1 =
        (ratTruncToInt q == 0 || ratTruncToInt q % m == 0)) ∧
    (∀ t : JsonValue, isNumberB t = false →
        visitConstraint rx strict wr t ctx (.multipleOfInt m) = (true, [])) := by
  refine ⟨?_, ?_, ?_, ?_⟩
  · intro i
    by_cases h0 : i = 0
    · simp [visitConstraint, maybeIntegerB, asIntegerOpt, multipleOfIntTail, h0]
    · by_cases hm : i % m = 0 <;>
        simp [visitConstraint, maybeIntegerB, asIntegerOpt, multipleOfIntTail, h0, hm]
  · intro q hq
    by_cases h0 : q.num = 0
    · simp [visitConstraint, maybeIntegerB, asIntegerOpt, multipleOfIntTail, hq, h0]
    · by_cases hm : q.num % m = 0 <;>
        simp [visitConstraint, maybeIntegerB, asIntegerOpt, multipleOfIntTail, hq, h0, hm]
  · intro q hq
    by_cases h0 : ratTruncToInt q = 0
    · simp [visitConstraint, maybeIntegerB, maybeDoubleB, isNumberB, asDoubleOpt,
        multipleOfIntTail, hq, h0]
    · by_cases hm : ratTruncToInt q % m = 0 <;>
        simp [visitConstraint, maybeIntegerB, maybeDoubleB, isNumberB, asDoubleOpt,
          multipleOfIntTail, hq, h0, hm]
  · intro t ht
    cases t <;> simp_all [visitConstraint, maybeIntegerB, maybeDoubleB, isNumberB,
      asIntegerOpt, asDoubleOpt, multipleOfIntTail]

theorem multipleOfInt_spec_witness :
    (visitConstraint (fun _ _ => false) true true (.num (5 / 2)) []
      (.multipleOfInt 2)).1 =
    (ratTruncToInt ((5 : Rat) / 2) == 0 || ratTruncToInt ((5 : Rat) / 2) % 2 == 0) :=
  (multipleOfInt_spec (fun _ _ => false) true true [] 2).2.2.1 ((5 : Rat) / 2) (by norm_num)

/-! ## Theorems: fail-fast versus collect-all verdict equivalence (claim C1)

One equivalence lemma per visitor function, proved by the same mutual
recursion as the definitions; the claim follows at `validateSchema`. -/

theorem multipleOfIntTail_fst (wr : Bool) (ctx : List String) (m i : Int) :
    (multipleOfIntTail wr ctx m i).1 = (multipleOfIntTail false ctx m i).1 := by
  simp only [multipleOfIntTail]
  split_ifs <;> rfl

theorem multipleOfDoubleTail_fst (wr : Bool) (ctx : List String) (m d : Rat) :
    (multipleOfDoubleTail wr ctx m d).1 = (multipleOfDoubleTail false ctx m d).1 := by
  simp only [multipleOfDoubleTail]
  split_ifs <;> rfl

theorem propertyDepsLoop_wr_eq (obj : List (String × JsonValue)) (ctx : List String)
    (pd : List (String × List String)) :
    (propertyDepsLoop true obj ctx pd).1 = (propertyDepsLoop false obj ctx pd).1 := by
  induction pd with
  | nil => simp [propertyDepsLoop]
  | cons e rest ih =>
    rcases e with ⟨p, deps⟩
    by_cases hp : hasMember obj p
    · by_cases hm : (deps.filter (fun d => !hasMember obj d)).isEmpty <;>
        simp [propertyDepsLoop, hp, hm, ih]
    · simp [propertyDepsLoop, hp, ih]

theorem uniqueInnerLoop_wr_eq (ctx : List String) (x : JsonValue) (oI iI : Nat)
    (l : List JsonValue) :
    (uniqueInnerLoop true ctx x oI iI l).1 = (uniqueInnerLoop false ctx x oI iI l).1 := by
  induction l generalizing iI with
  | nil => simp [uniqueInnerLoop]
  | cons y rest ih =>
    by_cases h : jsonEqStrict x y <;> simp [uniqueInnerLoop, h, ih]

theorem uniqueOuterLoop_wr_eq (ctx : List String) (oI : Nat) (l : List JsonValue) :
    (uniqueOuterLoop true ctx oI l).1 = (uniqueOuterLoop false ctx oI l).1 := by
  induction l generalizing oI with
  | nil => simp [uniqueOuterLoop]
  | cons x rest ih =>
    have h1 := uniqueInnerLoop_wr_eq ctx x oI 0 rest
    simp only [uniqueOuterLoop]
    rcases ht : uniqueInnerLoop true ctx x oI 0 rest with ⟨v1t, e1t⟩
    rcases hf : uniqueInnerLoop false ctx x oI 0 rest with ⟨v1f, e1f⟩
    rw [ht, hf] at h1
    simp only at h1
    subst h1
    cases v1t <;> simp [ih (oI + 1)]

theorem linearItemsRest_false_fst (rx : String → String → Bool) (strict : Bool)
    (arr : List JsonValue) (ctx : List String) (add : Option Subschema) (n : Nat)
    (acc : List VError) :
    (linearItemsRest rx strict true arr ctx add n false acc).1 = false := by
  rw [linearItemsRest.eq_def]
  by_cases hn : n < arr.length
  · cases add <;> simp [hn]
  · simp [hn]

set_option maxHeartbeats 2000000

mutual

theorem validateSchema_wr_eq (rx : String → String → Bool) (strict : Bool)
    (t : JsonValue) (ctx : List String) (s : Subschema) :
    (validateSchema rx strict true t ctx s).1 = (validateSchema rx strict false t ctx s).1 := by
  cases s with
  | mk cs => simpa [validateSchema] using applyConstraints_wr_eq rx strict t ctx cs
termination_by (sizeOf s, 0)

theorem applyConstraints_wr_eq (rx : String → String → Bool) (strict : Bool)
    (t : JsonValue) (ctx : List String) (cs : List Constraint) :
    (applyConstraints rx strict true t ctx cs).1 =
      (applyConstraints rx strict false t ctx cs).1 := by
  cases cs with
  | nil => simp [applyConstraints]
  | cons c rest =>
    have hc := visitConstraint_wr_eq rx strict t ctx c
    have hr := applyConstraints_wr_eq rx strict t ctx rest
    simp only [applyConstraints]
    rcases h1 : visitConstraint rx strict true t ctx c with ⟨b1, es1⟩
    rcases h2 : visitConstraint rx strict false t ctx c with ⟨b2, es2⟩
    rw [h1, h2] at hc
    simp only at hc
    subst hc
    cases b1 <;> simp [hr]
termination_by (sizeOf cs, 0)

theorem validateSubschemas_wr_eq (rx : String → String → Bool) (strict : Bool)
    (t : JsonValue) (ctx : List String) (contS contF : Bool) (idx : Nat)
    (l : List Subschema) :
    (validateSubschemas rx strict true t ctx contS contF idx l).1 =
      (validateSubschemas rx strict false t ctx contS contF idx l).1 ∧
    (validateSubschemas rx strict true t ctx contS contF idx l).2.1 =
      (validateSubschemas rx strict false t ctx contS contF idx l).2.1 := by
  cases l with
  | nil => simp [validateSubschemas]
  | cons s rest =>
    have hs := validateSchema_wr_eq rx strict t ctx s
    have hr := validateSubschemas_wr_eq rx strict t ctx contS contF (idx + 1) rest
    simp only [validateSubschemas]
    rcases h1 : validateSchema rx strict true t ctx s with ⟨b1, es1⟩
    rcases h2 : validateSchema rx strict false t ctx s with ⟨b2, es2⟩
    rw [h1, h2] at hs
    simp only at hs
    subst hs
    cases b1 <;> cases contS <;> cases contF <;> simp [hr.1, hr.2]
termination_by (sizeOf l, 0)

theorem validateItems_wr_eq (rx : String → String → Bool) (strict : Bool)
    (arr : List JsonValue) (ctx : List String) (idx : Nat) (l : List Subschema) :
    (validateItems rx strict true arr ctx idx l).2.1 =
      (validateItems rx strict false arr ctx idx l).2.1 ∧
    ((validateItems rx strict false arr ctx idx l).2.1 = true →
      (validateItems rx strict true arr ctx idx l).1 =
        (validateItems rx strict false arr ctx idx l).1) := by
  cases l with
  | nil => simp [validateItems]
  | cons sub rest =>
    cases harr : arr[idx]? with
    | none => simp [validateItems, harr]
    | some item =>
      have hv := validateSchema_wr_eq rx strict item (ctx ++ [idxSeg idx]) sub
      have ih := validateItems_wr_eq rx strict arr ctx (idx + 1) rest
      simp only [validateItems, harr]
      rcases h1 : validateSchema rx strict true item (ctx ++ [idxSeg idx]) sub with ⟨b1, es1⟩
      rcases h2 : validateSchema rx strict false item (ctx ++ [idxSeg idx]) sub with ⟨b2, es2⟩
      rw [h1, h2] at hv
      simp only at hv
      subst hv
      cases b1
      · simp
      · simp only [if_true]
        refine ⟨ih.1, fun hf => ?_⟩
        simp [ih.1, ih.2 hf]
termination_by (sizeOf l, 0)

theorem iterateElems_wr_eq (rx : String → String → Bool) (strict : Bool)
    (ctx : List String) (sub : Subschema) (mkE : Nat → VError) (idx : Nat)
    (vals : List JsonValue) :
    (iterateElems rx strict true ctx sub mkE idx vals).1 =
      (iterateElems rx strict false ctx sub mkE idx vals).1 := by
  cases vals with
  | nil => simp [iterateElems]
  | cons item rest =>
    have hv := validateSchema_wr_eq rx strict item (ctx ++ [idxSeg idx]) sub
    have ih := iterateElems_wr_eq rx strict ctx sub mkE (idx + 1) rest
    simp only [iterateElems]
    rcases h1 : validateSchema rx strict true item (ctx ++ [idxSeg idx]) sub with ⟨b1, es1⟩
    rcases h2 : validateSchema rx strict false item (ctx ++ [idxSeg idx]) sub with ⟨b2, es2⟩
    rw [h1, h2] at hv
    simp only at hv
    subst hv
    cases b1 <;> simp [ih]
termination_by (sizeOf sub, vals.length + 1)

theorem linearItemsRest_wr_eq (rx : String → String → Bool) (strict : Bool)
    (arr : List JsonValue) (ctx : List String) (add : Option Subschema) (n : Nat)
    (v : Bool) (acc acc' : List VError) :
    (linearItemsRest rx strict true arr ctx add n v acc).1 =
      (linearItemsRest rx strict false arr ctx add n v acc').1 := by
  rw [linearItemsRest.eq_def, linearItemsRest.eq_def]
  by_cases hn : n < arr.length
  · cases add with
    | none => simp [hn]
    | some sub =>
      have he := iterateElems_wr_eq rx strict ctx sub
        (fun i => ⟨ctx, "Failed to validate item #" ++ toString i ++
          " against additional items schema."⟩) n (arr.drop n)
      simp only [hn, if_true]
      rcases h1 : iterateElems rx strict true ctx _ _ n (arr.drop n) with ⟨b1, es1⟩
      rcases h2 : iterateElems rx strict false ctx _ _ n (arr.drop n) with ⟨b2, es2⟩
      rw [h1, h2] at he
      simp only at he
      subst he
      cases b1 <;> cases v <;> simp
  · simp [hn]
termination_by (sizeOf add, 0)

theorem typeSchemasLoop_wr_eq (rx : String → String → Bool) (strict : Bool)
    (t : JsonValue) (ctx : List String) (l : List Subschema) :
    (typeSchemasLoop rx strict true t ctx l).1 =
      (typeSchemasLoop rx strict false t ctx l).1 := by
  cases l with
  | nil => simp [typeSchemasLoop]
  | cons s rest =>
    have hv := validateSchema_wr_eq rx strict t ctx s
    have ih := typeSchemasLoop_wr_eq rx strict t ctx rest
    simp only [typeSchemasLoop]
    rcases h1 : validateSchema rx strict true t ctx s with ⟨b1, es1⟩
    rcases h2 : validateSchema rx strict false t ctx s with ⟨b2, es2⟩
    rw [h1, h2] at hv
    simp only at hv
    subst hv
    cases b1 <;> simp [ih]
termination_by (sizeOf l, 0)

theorem schemaDepsLoop_wr_eq (rx : String → String → Bool) (strict : Bool)
    (t : JsonValue) (ctx : List String) (obj : List (String × JsonValue))
    (l : List (String × Subschema)) :
    (schemaDepsLoop rx strict true t ctx obj l).1 =
      (schemaDepsLoop rx strict false t ctx obj l).1 := by
  cases l with
  | nil => simp [schemaDepsLoop]
  | cons e rest =>
    rcases e with ⟨p, dep⟩
    have ih := schemaDepsLoop_wr_eq rx strict t ctx obj rest
    by_cases hp : hasMember obj p
    · have hv := validateSchema_wr_eq rx strict t ctx dep
      simp only [schemaDepsLoop, hp, if_true]
      rcases h1 : validateSchema rx strict true t ctx dep with ⟨b1, es1⟩
      rcases h2 : validateSchema rx strict false t ctx dep with ⟨b2, es2⟩
      rw [h1, h2] at hv
      simp only at hv
      subst hv
      cases b1 <;> simp [ih]
    · simp [schemaDepsLoop, hp, ih]
termination_by (sizeOf l, 0)

theorem literalPropSearch_wr_eq (rx : String → String → Bool) (strict : Bool)
    (value : JsonValue) (newCtx ctx : List String) (name : String)
    (l : List (String × Subschema)) :
    (literalPropSearch rx strict true value newCtx ctx name l).1 =
      (literalPropSearch rx strict false value newCtx ctx name l).1 ∧
    (literalPropSearch rx strict true value newCtx ctx name l).2.1 =
      (literalPropSearch rx strict false value newCtx ctx name l).2.1 := by
  cases l with
  | nil => simp [literalPropSearch]
  | cons e rest =>
    rcases e with ⟨k, sub⟩
    by_cases hk : k == name
    · have hv := validateSchema_wr_eq rx strict value newCtx sub
      simp only [literalPropSearch, hk, if_true]
      rcases h1 : validateSchema rx strict true value newCtx sub with ⟨b1, es1⟩
      rcases h2 : validateSchema rx strict false value newCtx sub with ⟨b2, es2⟩
      rw [h1, h2] at hv
      simp only at hv
      subst hv
      cases b1 <;> simp
    · have ih := literalPropSearch_wr_eq rx strict value newCtx ctx name rest
      simp only [literalPropSearch, hk]
      simpa using ih
termination_by (sizeOf l, 0)

theorem patternPropsLoop_wr_eq (rx : String → String → Bool) (strict : Bool)
    (value : JsonValue) (newCtx ctx : List String) (name : String)
    (l : List (String × Subschema)) :
    (patternPropsLoop rx strict true value newCtx ctx name l).1 =
      (patternPropsLoop rx strict false value newCtx ctx name l).1 ∧
    (patternPropsLoop rx strict true value newCtx ctx name l).2.1 =
      (patternPropsLoop rx strict false value newCtx ctx name l).2.1 := by
  cases l with
  | nil => simp [patternPropsLoop]
  | cons e rest =>
    rcases e with ⟨pat, sub⟩
    have ih := patternPropsLoop_wr_eq rx strict value newCtx ctx name rest
    by_cases hp : rx pat name
    · have hv := validateSchema_wr_eq rx strict value newCtx sub
      simp only [patternPropsLoop, hp, if_true]
      rcases h1 : validateSchema rx strict true value newCtx sub with ⟨b1, es1⟩
      rcases h2 : validateSchema rx strict false value newCtx sub with ⟨b2, es2⟩
      rw [h1, h2] at hv
      simp only at hv
      subst hv
      cases b1 <;> simp [ih.1, ih.2]
    · simp only [patternPropsLoop, hp]
      simpa using ih
termination_by (sizeOf l, 0)

theorem validateProperties_wr_eq (rx : String → String → Bool) (strict : Bool)
    (ctx : List String) (props patProps : List (String × Subschema))
    (add : Option Subschema) (ms : List (String × JsonValue)) :
    (validateProperties rx strict true ctx props patProps add ms).1 =
      (validateProperties rx strict false ctx props patProps add ms).1 := by
  cases ms with
  | nil =>
    conv_lhs => rw [validateProperties.eq_def]
    conv_rhs => rw [validateProperties.eq_def]
  | cons m rest =>
    rcases m with ⟨name, value⟩
    have k := literalPropSearch_wr_eq rx strict value (ctx ++ [keySeg name]) ctx name props
    have l := patternPropsLoop_wr_eq rx strict value (ctx ++ [keySeg name]) ctx name patProps
    have ih := validateProperties_wr_eq rx strict ctx props patProps add rest
    conv_lhs => rw [validateProperties.eq_def]
    conv_rhs => rw [validateProperties.eq_def]
    dsimp only
    rcases hk1 : literalPropSearch rx strict true value (ctx ++ [keySeg name]) ctx name props
      with ⟨m1t, v1t, e1t⟩
    rcases hk2 : literalPropSearch rx strict false value (ctx ++ [keySeg name]) ctx name props
      with ⟨m1f, v1f, e1f⟩
    rcases hl1 : patternPropsLoop rx strict true value (ctx ++ [keySeg name]) ctx name patProps
      with ⟨m2t, v2t, e2t⟩
    rcases hl2 : patternPropsLoop rx strict false value (ctx ++ [keySeg name]) ctx name patProps
      with ⟨m2f, v2f, e2f⟩
    rw [hk1, hk2] at k
    rw [hl1, hl2] at l
    simp only at k l
    obtain ⟨hm1, hv1⟩ := k
    obtain ⟨hm2, hv2⟩ := l
    subst hm1; subst hv1; subst hm2; subst hv2
    cases v1t
    · simp
    · cases v2t
      · simp
      · simp only [Bool.true_and, Bool.not_true, Bool.false_and, if_false]
        by_cases hmt : (m1t || m2t : Bool)
        · simp [hmt, ih]
        · simp only [hmt]
          cases add with
          | none => simp
          | some sub =>
            have hv := validateSchema_wr_eq rx strict value (ctx ++ [keySeg name]) sub
            rcases h1 : validateSchema rx strict true value (ctx ++ [keySeg name]) sub
              with ⟨b1, es1⟩
            rcases h2 : validateSchema rx strict false value (ctx ++ [keySeg name]) sub
              with ⟨b2, es2⟩
            rw [h1, h2] at hv
            simp only at hv
            subst hv
            cases b1 <;> simp [h1, h2, ih]
termination_by (sizeOf props + sizeOf patProps + sizeOf add, ms.length + 1)
decreasing_by
  · apply Prod.Lex.left
    have h1 := sizeOf_list_pos patProps
    have h2 := sizeOf_option_pos add
    omega
  · apply Prod.Lex.left
    have h1 := sizeOf_list_pos props
    have h2 := sizeOf_option_pos add
    omega
  · apply Prod.Lex.right
    simp [List.length_cons]
  · apply Prod.Lex.left
    have h1 := sizeOf_list_pos props
    have h2 := sizeOf_list_pos patProps
    simp
    omega

theorem visitConstraint_wr_eq (rx : String → String → Bool) (strict : Bool)
    (t : JsonValue) (ctx : List String) (c : Constraint) :
    (visitConstraint rx strict true t ctx c).1 =
      (visitConstraint rx strict false t ctx c).1 := by
  cases c with
  | allOf subs =>
    have h := validateSubschemas_wr_eq rx strict t ctx true false 0 subs
    simp only [visitConstraint]
    exact h.2
  | anyOf subs =>
    have h := (validateSubschemas_wr_eq rx strict t ctx false true 0 subs).1
    simp only [visitConstraint]
    simp [h]
  | dependencies pd sd =>
    by_cases hg : ((strict && !isObjectB t) || !maybeObjectB t : Bool)
    · simp [visitConstraint, hg]
    · have h1 := propertyDepsLoop_wr_eq (membersOf t) ctx pd
      have h2 := schemaDepsLoop_wr_eq rx strict t ctx (membersOf t) sd
      simp only [visitConstraint, hg, Bool.false_eq_true, if_false]
      rcases ha1 : propertyDepsLoop true (membersOf t) ctx pd with ⟨v1t, e1t⟩
      rcases ha2 : propertyDepsLoop false (membersOf t) ctx pd with ⟨v1f, e1f⟩
      rcases hb1 : schemaDepsLoop rx strict true t ctx (membersOf t) sd with ⟨v2t, e2t⟩
      rcases hb2 : schemaDepsLoop rx strict false t ctx (membersOf t) sd with ⟨v2f, e2f⟩
      rw [ha1, ha2] at h1
      rw [hb1, hb2] at h2
      simp only at h1 h2
      subst h1; subst h2
      cases v1t <;> cases v2t <;> simp
  | enumC values =>
    by_cases h : values.any (fun v => jsonEqStrict v t) <;> simp [visitConstraint, h]
  | linearItems items add =>
    by_cases hg : ((strict && !isArrayB t) || !maybeArrayB t : Bool)
    · simp [visitConstraint, hg]
    · simp only [visitConstraint, hg, Bool.false_eq_true, if_false]
      by_cases hl : items.length > 0
      · by_cases ha : (add.isNone && decide ((elemsOf t).length > items.length)) = true
        · simp only [if_pos hl, if_pos ha, if_pos rfl]
          simp [linearItemsRest_false_fst]
        · simp only [if_pos hl, if_neg ha]
          have hi := validateItems_wr_eq rx strict (elemsOf t) ctx 0 items
          rcases hi1 : validateItems rx strict true (elemsOf t) ctx 0 items
            with ⟨n1, v1, es1⟩
          rcases hi2 : validateItems rx strict false (elemsOf t) ctx 0 items
            with ⟨n2, v2, es2⟩
          rw [hi1, hi2] at hi
          simp only at hi
          obtain ⟨hv, hn⟩ := hi
          subst hv
          cases v1 with
          | false => simp [linearItemsRest_false_fst]
          | true =>
            rw [hn rfl]
            simp only [Bool.not_true, Bool.not_false, Bool.and_false, Bool.and_true,
              Bool.false_eq_true, if_false]
            exact linearItemsRest_wr_eq rx strict (elemsOf t) ctx add n2 true es1 es2
      · simp only [if_neg hl]
        exact linearItemsRest_wr_eq rx strict (elemsOf t) ctx add 0 true [] []
  | maximumC m ex =>
    simp only [visitConstraint]
    split_ifs <;> simp
  | maxItemsC n =>
    simp only [visitConstraint]
    split_ifs <;> simp
  | maxLengthC n =>
    simp only [visitConstraint]
    split_ifs <;> simp
  | maxPropertiesC n =>
    simp only [visitConstraint]
    split_ifs <;> simp
  | minimumC m ex =>
    simp only [visitConstraint]
    split_ifs <;> simp
  | minItemsC n =>
    simp only [visitConstraint]
    split_ifs <;> simp
  | minLengthC n =>
    simp only [visitConstraint]
    split_ifs <;> simp
  | minPropertiesC n =>
    simp only [visitConstraint]
    split_ifs <;> simp
  | multipleOfInt m =>
    simp only [visitConstraint]
    by_cases h1 : maybeIntegerB t
    · simp only [h1, if_true]
      cases asIntegerOpt t <;> simp [multipleOfIntTail_fst]
    · by_cases h2 : maybeDoubleB t
      · simp only [h1, h2, Bool.false_eq_true, if_false, if_true]
        cases asDoubleOpt t <;> simp [multipleOfIntTail_fst]
      · simp [h1, h2]
  | multipleOfDouble m =>
    simp only [visitConstraint]
    by_cases h1 : maybeDoubleB t
    · simp only [h1, if_true]
      cases asDoubleOpt t <;> simp [multipleOfDoubleTail_fst]
    · by_cases h2 : maybeIntegerB t
      · simp only [h1, h2, Bool.false_eq_true, if_false, if_true]
        cases asIntegerOpt t <;> simp [multipleOfDoubleTail_fst]
      · simp [h1, h2]
  | notC s =>
    simp only [visitConstraint]
    cases (validateSchema rx strict false t ctx s).1 <;> simp
  | oneOf subs =>
    have h := (validateSubschemas_wr_eq rx strict t ctx true true 0 subs).1
    simp only [visitConstraint]
    rcases h1 : validateSubschemas rx strict true t ctx true true 0 subs with ⟨n1, v1, ev1⟩
    rcases h2 : validateSubschemas rx strict false t ctx true true 0 subs with ⟨n2, v2, ev2⟩
    rw [h1, h2] at h
    simp only at h
    subst h
    by_cases h0 : n1 == 0 <;> by_cases hone : n1 == 1 <;> simp [h0, hone]
  | patternC pat =>
    simp only [visitConstraint]
    split_ifs <;> simp
  | propertiesC props patProps add =>
    by_cases hg : ((strict && !isObjectB t) || !maybeObjectB t : Bool)
    · simp [visitConstraint, hg]
    · simp only [visitConstraint, hg, Bool.false_eq_true, if_false]
      exact validateProperties_wr_eq rx strict ctx props patProps add (membersOf t)
  | requiredC names =>
    by_cases hg : ((strict && !isObjectB t) || !maybeObjectB t : Bool)
    · simp [visitConstraint, hg]
    · simp only [visitConstraint, hg, Bool.false_eq_true, if_false]
      simp [requiredLoop_fst]
  | singularItems optSub =>
    by_cases hg : isArrayB t
    · cases optSub with
      | none => simp [visitConstraint, hg]
      | some sub =>
        simp only [visitConstraint, hg, Bool.not_true, Bool.false_eq_true, if_false]
        exact iterateElems_wr_eq rx strict ctx sub _ 0 (elemsOf t)
    · have hg2 : isArrayB t = false := by simpa using hg
      cases optSub <;> simp [visitConstraint, hg2]
  | typeC jsonTypes schemas =>
    by_cases hn : jsonTypes.any (namedTypeMatches strict t)
    · simp [visitConstraint, hn]
    · have h := typeSchemasLoop_wr_eq rx strict t ctx schemas
      simp only [visitConstraint, hn, Bool.false_eq_true, if_false]
      rcases h1 : typeSchemasLoop rx strict true t ctx schemas with ⟨b1, es1⟩
      rcases h2 : typeSchemasLoop rx strict false t ctx schemas with ⟨b2, es2⟩
      rw [h1, h2] at h
      simp only at h
      subst h
      cases b1 <;> simp
  | uniqueItems =>
    by_cases hg : ((strict && !isArrayB t) || !maybeArrayB t : Bool)
    · simp [visitConstraint, hg]
    · simp only [visitConstraint, hg, Bool.false_eq_true, if_false]
      exact uniqueOuterLoop_wr_eq ctx 0 (elemsOf t)
termination_by (sizeOf c, 0)

end

/-- C1: for every schema and target document (and any regex engine, typing
mode and context), fail-fast validation (no results sink) and collect-all
validation (results sink attached) return the same boolean verdict. -/
theorem failFast_collectAll_same_verdict (rx : String → String → Bool) (strict : Bool)
    (t : JsonValue) (ctx : List String) (s : Subschema) :
    (validateSchema rx strict true t ctx s).1 = (validateSchema rx strict false t ctx s).1 :=
  validateSchema_wr_eq rx strict t ctx s

end Valijson
